import Mathlib

/-!
Shallow embedding of the tag-selection engine of the note-taking app
(`src/unnamed/part_001`, with `src/src/App.tsx` sharing `toggleTag`).

JS strings are modelled as `List Char`, JS numbers used as match scores as
`Rat`, timestamps (`new Date()`) as an explicit `now : Nat` parameter, and
fresh ids (`Date.now().toString()`) as an explicit `freshId` parameter.
React state updates inside one event handler are modelled as a single pure
transition; values read from the render closure (as opposed to functional
`setX(prev => ...)` updaters) are passed as the pre-transition state, which
reproduces the stale-closure reads of the source.
-/

namespace NotesApp

/-- A JS string, as a list of characters. -/
abbrev Str := List Char

/-- `s.toLowerCase()`. -/
def lower (s : Str) : Str := s.map Char.toLower

/-- `s.trim()`: strip whitespace from both ends. -/
def trim (s : Str) : Str :=
  ((s.dropWhile Char.isWhitespace).reverse.dropWhile Char.isWhitespace).reverse

/-- `interface Tag` (part_001 lines 14-17). -/
structure Tag where
  id : Str
  name : Str
deriving DecidableEq

/-- `interface Note` (part_001 lines 3-12); the cosmetic `isNew` animation
flag is omitted, timestamps are `Nat`. -/
structure Note where
  id : Str
  content : Str
  tagIds : List Str
  createdAt : Nat
  updatedAt : Nat
  isBookmarked : Bool
  isCompleted : Bool
deriving DecidableEq

/-- Result of `fuzzyMatch`: `{ matches: boolean; score: number }`; the
source field `matches` is a reserved word in Lean and is called `matched`
here. -/
structure FuzzyResult where
  matched : Bool
  score : Rat
deriving DecidableEq

/-- `textLower.indexOf(queryLower)` (combined with the `includes` test):
first index at which `pat` occurs as a contiguous sublist of `text`,
`none` when it does not occur. -/
def subIndex? : Str → Str → Option Nat
  | text, pat =>
    if pat.isPrefixOf text then some 0
    else
      match text with
      | [] => none
      | _ :: rest => (subIndex? rest pat).map (· + 1)

/-- The `while` loop of `fuzzyMatch` (part_001 lines 422-432): walk the text
once, advancing through the query on each character match; returns the
number of matched characters (`matches`, which equals the final
`queryIndex`). -/
def subseqCount : Str → Str → Nat
  | _, [] => 0
  | [], _ :: _ => 0
  | t :: ts, q :: qs => if t = q then 1 + subseqCount ts qs else subseqCount ts (q :: qs)

/-- `fuzzyMatch` (part_001 lines 409-438). -/
def fuzzyMatch (text query : Str) : FuzzyResult :=
  if trim query = [] then ⟨true, 0⟩
  else
    let textLower := lower text
    let queryLower := lower query
    match subIndex? textLower queryLower with
    | some index => ⟨true, 1000 - (index : Rat)⟩
    | none =>
      let m := subseqCount textLower queryLower
      let isMatch := m == queryLower.length
      ⟨isMatch, if isMatch then ((m : Rat) / (textLower.length : Rat)) * 100 else 0⟩

/-- A candidate entry as built by `getFilteredTagOptions`:
`{ ...tag, ...fuzzyMatch(tag.name, query), isNew: false }` or the synthetic
create entry. -/
structure TagOption where
  id : Str
  name : Str
  matched : Bool
  score : Rat
  isNew : Bool
deriving DecidableEq

/-- The literal id `'new'` of the synthetic create candidate. -/
def newTagOptionId : Str := "new".toList

/-- The map-and-filter stage of `getFilteredTagOptions` (before sorting):
annotate every registry tag with its fuzzy-match result and keep the
matching ones, in registry order. -/
def rawTagOptions (tags : List Tag) (query : Str) : List TagOption :=
  (tags.map (fun tag =>
    let r := fuzzyMatch tag.name query
    TagOption.mk tag.id tag.name r.matched r.score false)).filter
    (fun t => t.matched)

/-- The sort comparator `(a, b) => b.score - a.score`: `a` may precede `b`
exactly when `a.score ≥ b.score`. -/
def scoreDesc (a b : TagOption) : Prop := b.score ≤ a.score

instance : DecidableRel scoreDesc :=
  fun a b => inferInstanceAs (Decidable (b.score ≤ a.score))

instance : IsTotal TagOption scoreDesc :=
  ⟨fun a b => le_total b.score a.score⟩

instance : IsTrans TagOption scoreDesc :=
  ⟨fun _ _ _ h1 h2 => le_trans h2 h1⟩

/-- `matchingTags` of `getFilteredTagOptions` (part_001 lines 442-445):
`.sort((a, b) => b.score - a.score)`. JS `Array.prototype.sort` is a stable
sort, and a stable sort by a total preorder is a unique function of its
input, so it is embedded here by stable insertion sort (which the kernel
can evaluate). -/
def matchingTagOptions (tags : List Tag) (query : Str) : List TagOption :=
  (rawTagOptions tags query).insertionSort scoreDesc

/-- `shouldShowCreateOption` (part_001 lines 448-450); note that the
case-insensitive name-equality test uses the untrimmed `query`. -/
def shouldShowCreateOption (tags : List Tag) (query : Str) : Bool :=
  !(trim query).isEmpty && (matchingTagOptions tags query).length == 0 &&
    !(tags.any (fun tag => lower tag.name == lower query))

/-- `getFilteredTagOptions` (part_001 lines 440-458). -/
def getFilteredTagOptions (tags : List Tag) (query : Str) : List TagOption :=
  matchingTagOptions tags query ++
    (if shouldShowCreateOption tags query then
      [TagOption.mk newTagOptionId (trim query) true 0 true]
    else [])

/-- The `inlineTagEdit` session state (part_001 lines 28-32). -/
structure InlineTagEdit where
  noteId : Str
  query : Str
  highlightedIndex : Int
deriving DecidableEq

/-- The `hashtagAutocomplete` session state (part_001 lines 34-39). -/
structure HashtagAutocomplete where
  noteId : Str
  query : Str
  savedCursorPos : Nat
  highlightedIndex : Int
deriving DecidableEq

/-- Direction argument of `navigateInlineTagEdit`. -/
inductive NavDirection
  | up
  | down
deriving DecidableEq

/-- JS array indexing `xs[i]`: `undefined` (`none`) for a negative or
out-of-range index. -/
def getAtInt (l : List α) (i : Int) : Option α :=
  if i < 0 then none else l[i.toNat]?

/-- JS `findIndex`: index of the first element satisfying `p`, `-1` when
there is none. -/
def findIdxInt (p : α → Bool) (l : List α) : Int :=
  match l.findIdx? p with
  | some i => (i : Int)
  | none => -1

/-- `startInlineTagEdit` (part_001 lines 254-262): fresh session with empty
query and sentinel highlight `-1`. -/
def startInlineTagEdit (noteId : Str) : InlineTagEdit :=
  ⟨noteId, [], -1⟩

/-- `updateInlineTagQuery` (part_001 lines 279-288). -/
def updateInlineTagQuery (tags : List Tag) (s : InlineTagEdit) (query : Str) :
    InlineTagEdit :=
  let filteredOptions := getFilteredTagOptions tags query
  ⟨s.noteId, query,
    min s.highlightedIndex (max 0 ((filteredOptions.length : Int) - 1))⟩

/-- `navigateInlineTagEdit` (part_001 lines 290-307). -/
def navigateInlineTagEdit (tags : List Tag) (s : InlineTagEdit)
    (direction : NavDirection) : InlineTagEdit :=
  let filteredOptions := getFilteredTagOptions tags s.query
  let maxIndex : Int := max ((filteredOptions.length : Int) - 1) 0
  let newIndex : Int :=
    match direction with
    | .up => if s.highlightedIndex > 0 then s.highlightedIndex - 1 else maxIndex
    | .down => if s.highlightedIndex < maxIndex then s.highlightedIndex + 1 else 0
  ⟨s.noteId, s.query, newIndex⟩

/-- `toggleTag` (part_001 lines 193-207; identically in App.tsx lines
938-952): add the tag id if absent, remove every occurrence if present,
stamping `updatedAt`. -/
def toggleTag (now : Nat) (notes : List Note) (noteId tagId : Str) : List Note :=
  notes.map (fun note =>
    if note.id = noteId then
      { note with
          tagIds :=
            if note.tagIds.contains tagId then
              note.tagIds.filter (fun id => id != tagId)
            else
              note.tagIds ++ [tagId],
          updatedAt := now }
    else note)

/-- `continueTaggingSession` (part_001 lines 343-362). The `notes` argument
is the render-closure value, i.e. the notes list as it was when the event
handler was created (before any toggle queued in the same handler). -/
def continueTaggingSession (notes : List Note) (tags : List Tag)
    (s : InlineTagEdit) : InlineTagEdit :=
  match notes.find? (fun n => n.id == s.noteId) with
  | none => s
  | some note =>
    let allTags := getFilteredTagOptions tags []
    let firstUnselectedIndex :=
      findIdxInt (fun tag => !tag.isNew && !(note.tagIds.contains tag.id)) allTags
    ⟨s.noteId, [], max 0 firstUnselectedIndex⟩

/-- `toggleHighlightedTag` (part_001 lines 309-340): returns the next notes
list and the next session. `continueTaggingSession` receives the
pre-toggle `notes` (the stale closure value in the source). -/
def toggleHighlightedTag (now : Nat) (notes : List Note) (tags : List Tag)
    (s : InlineTagEdit) : List Note × InlineTagEdit :=
  let filteredOptions := getFilteredTagOptions tags s.query
  match getAtInt filteredOptions s.highlightedIndex with
  | none => (notes, s)
  | some highlightedOption =>
    if highlightedOption.isNew then
      (notes, s)
    else
      let notes' := toggleTag now notes s.noteId highlightedOption.id
      let shouldAutoAdvance :=
        !(trim s.query).isEmpty && (getFilteredTagOptions tags s.query).length == 1
      if shouldAutoAdvance then
        (notes', continueTaggingSession notes tags s)
      else
        (notes', ⟨s.noteId, [], s.highlightedIndex⟩)

/-- The `Enter` branch of `handleTagInputKeyDown` (part_001 lines 660-691):
returns the next notes list, tag registry, and session (`none` = session
closed by `exitInlineTagEdit`). When the guard passes but the highlighted
index is out of range the source throws on `highlightedOption.id` before
any state update, leaving notes, tags and the open session unchanged. -/
def handleTagEnter (now : Nat) (freshId : Str) (notes : List Note)
    (tags : List Tag) (s : InlineTagEdit) :
    List Note × List Tag × Option InlineTagEdit :=
  let filteredOptions := getFilteredTagOptions tags s.query
  if 0 < filteredOptions.length ∧ 0 ≤ s.highlightedIndex then
    match getAtInt filteredOptions s.highlightedIndex with
    | none => (notes, tags, some s)
    | some highlightedOption =>
      if highlightedOption.isNew then
        let newTag : Tag := ⟨freshId, highlightedOption.name⟩
        (toggleTag now notes s.noteId newTag.id, tags ++ [newTag],
          some (continueTaggingSession notes tags s))
      else
        (toggleTag now notes s.noteId highlightedOption.id, tags,
          some (continueTaggingSession notes tags s))
  else
    (notes, tags, none)

/-- `selectHashtagTag` (part_001 lines 365-393): look the id up in the
registry, create-and-register a tag when absent and `isNew` is set, then
toggle it onto the note and close the autocomplete. -/
def selectHashtagTag (now : Nat) (freshId : Str) (notes : List Note)
    (tags : List Tag) (h : HashtagAutocomplete) (tagId : Str) (isNew : Bool) :
    List Note × List Tag × Option HashtagAutocomplete :=
  match tags.find? (fun t => t.id == tagId) with
  | some selectedTag =>
    (toggleTag now notes h.noteId selectedTag.id, tags, none)
  | none =>
    if isNew then
      let selectedTag : Tag := ⟨freshId, trim h.query⟩
      (toggleTag now notes h.noteId selectedTag.id, tags ++ [selectedTag], none)
    else
      (notes, tags, none)

/-- `ArrowUp` of the hashtag autocomplete `onKeyDown` (part_001 lines
1125-1131): clamp at 0, no wraparound. -/
def hashtagArrowUp (h : HashtagAutocomplete) : HashtagAutocomplete :=
  ⟨h.noteId, h.query, h.savedCursorPos, max 0 (h.highlightedIndex - 1)⟩

/-- `ArrowDown` of the hashtag autocomplete `onKeyDown` (part_001 lines
1132-1138): clamp at the last index, no wraparound. -/
def hashtagArrowDown (tags : List Tag) (h : HashtagAutocomplete) :
    HashtagAutocomplete :=
  let filteredOptions := getFilteredTagOptions tags h.query
  ⟨h.noteId, h.query, h.savedCursorPos,
    min (((filteredOptions.length : Int)) - 1) (h.highlightedIndex + 1)⟩

/-- Session-highlight invariant as the code maintains it: the highlight is
the sentinel `-1` or lies within `[0, max 0 (candidateCount - 1)]`. -/
def sessionInv (tags : List Tag) (s : InlineTagEdit) : Prop :=
  s.highlightedIndex = -1 ∨
    (0 ≤ s.highlightedIndex ∧
      s.highlightedIndex ≤ max 0 (((getFilteredTagOptions tags s.query).length : Int) - 1))

/-- Session-highlight invariant exactly as the spec states it: within
`[0, max 0 (candidateCount - 1)]`, or the sentinel only when the candidate
list is empty. -/
def sessionInvStrict (tags : List Tag) (s : InlineTagEdit) : Prop :=
  (0 ≤ s.highlightedIndex ∧
    s.highlightedIndex ≤ max 0 (((getFilteredTagOptions tags s.query).length : Int) - 1)) ∨
  (s.highlightedIndex = -1 ∧ (getFilteredTagOptions tags s.query).length = 0)

/-- Registry invariant: every tag id associated with any note names a
registered tag. -/
def WellTagged (notes : List Note) (tags : List Tag) : Prop :=
  ∀ n ∈ notes, ∀ tid ∈ n.tagIds, ∃ t ∈ tags, t.id = tid

instance (tags : List Tag) (s : InlineTagEdit) : Decidable (sessionInv tags s) := by
  unfold sessionInv
  infer_instance

instance (tags : List Tag) (s : InlineTagEdit) :
    Decidable (sessionInvStrict tags s) := by
  unfold sessionInvStrict
  infer_instance

instance (notes : List Note) (tags : List Tag) :
    Decidable (WellTagged notes tags) := by
  unfold WellTagged
  infer_instance

/-! ### Basic lemmas about the fuzzy matcher -/

theorem fuzzyMatch_substr {text query : Str} {i : Nat} (hq : trim query ≠ [])
    (h : subIndex? (lower text) (lower query) = some i) :
    fuzzyMatch text query = ⟨true, 1000 - (i : Rat)⟩ := by
  unfold fuzzyMatch
  rw [if_neg hq]
  simp only [h]

theorem fuzzyMatch_subseq {text query : Str} (hq : trim query ≠ [])
    (h : subIndex? (lower text) (lower query) = none) :
    fuzzyMatch text query =
      ⟨subseqCount (lower text) (lower query) == (lower query).length,
        if subseqCount (lower text) (lower query) == (lower query).length then
          ((subseqCount (lower text) (lower query) : Rat) /
            ((lower text).length : Rat)) * 100
        else 0⟩ := by
  unfold fuzzyMatch
  rw [if_neg hq]
  simp only [h]

theorem subseqCount_le_right : ∀ t q : Str, subseqCount t q ≤ q.length
  | _, [] => by simp [subseqCount]
  | [], _ :: _ => by simp [subseqCount]
  | t :: ts, q :: qs => by
    rw [subseqCount]
    split
    · have ih := subseqCount_le_right ts qs
      simp only [List.length_cons]
      omega
    · have ih := subseqCount_le_right ts (q :: qs)
      simp only [List.length_cons] at ih ⊢
      omega

theorem subseqCount_le_left : ∀ t q : Str, subseqCount t q ≤ t.length
  | _, [] => by simp [subseqCount]
  | [], _ :: _ => by simp [subseqCount]
  | t :: ts, q :: qs => by
    rw [subseqCount]
    split
    · have ih := subseqCount_le_left ts qs
      simp only [List.length_cons]
      omega
    · have ih := subseqCount_le_left ts (q :: qs)
      simp only [List.length_cons] at ih ⊢
      omega

/-- A greedy subsequence walk that matches every character of both lists
forces the lists to be equal. -/
theorem eq_of_subseqCount_eq : ∀ t q : Str,
    subseqCount t q = t.length → subseqCount t q = q.length → t = q
  | [], [], _, _ => rfl
  | [], q :: qs, h1, h2 => by
    rw [subseqCount] at h2
    exact absurd h2.symm (Nat.succ_ne_zero _)
  | t :: ts, [], h1, h2 => by
    rw [subseqCount] at h1
    exact absurd h1.symm (Nat.succ_ne_zero _)
  | t :: ts, q :: qs, h1, h2 => by
    rw [subseqCount] at h1 h2
    by_cases h : t = q
    · rw [if_pos h] at h1 h2
      simp only [List.length_cons, Nat.add_comm 1] at h1 h2
      have := eq_of_subseqCount_eq ts qs (by omega) (by omega)
      rw [h, this]
    · rw [if_neg h] at h1
      have := subseqCount_le_left ts (q :: qs)
      simp only [List.length_cons] at h1
      omega

theorem subIndex?_self (l : Str) : subIndex? l l = some 0 := by
  have h : l.isPrefixOf l = true := List.isPrefixOf_iff_prefix.mpr (List.prefix_refl l)
  rw [subIndex?.eq_def]
  simp [h]

/-! ### Basic lemmas about the candidate list builder -/

theorem mem_rawTagOptions {opt : TagOption} {tags : List Tag} {query : Str}
    (h : opt ∈ rawTagOptions tags query) :
    opt.isNew = false ∧ ∃ t ∈ tags, opt.id = t.id := by
  rw [rawTagOptions, List.mem_filter] at h
  obtain ⟨hm, -⟩ := h
  rw [List.mem_map] at hm
  obtain ⟨t, ht, rfl⟩ := hm
  exact ⟨rfl, t, ht, rfl⟩

theorem mem_matchingTagOptions {opt : TagOption} {tags : List Tag} {query : Str}
    (h : opt ∈ matchingTagOptions tags query) :
    opt.isNew = false ∧ ∃ t ∈ tags, opt.id = t.id := by
  rw [matchingTagOptions, List.mem_insertionSort] at h
  exact mem_rawTagOptions h

/-- With the empty query every registry tag matches neutrally (score 0) and
no create candidate is added: the candidate list is the registry itself,
annotated. -/
theorem filteredOptions_nil (tags : List Tag) :
    getFilteredTagOptions tags [] =
      tags.map (fun t => TagOption.mk t.id t.name true 0 false) := by
  have hraw : rawTagOptions tags [] =
      tags.map (fun t => TagOption.mk t.id t.name true 0 false) := by
    rw [rawTagOptions]
    rw [List.filter_map]
    have h1 : ((fun t : TagOption => t.matched) ∘
        (fun tag : Tag =>
          let r := fuzzyMatch tag.name []
          TagOption.mk tag.id tag.name r.matched r.score false)) = fun _ => true := by
      funext t
      rfl
    have h2 : (fun tag : Tag =>
        let r := fuzzyMatch tag.name []
        TagOption.mk tag.id tag.name r.matched r.score false) =
        fun t : Tag => TagOption.mk t.id t.name true 0 false := by
      funext t
      rfl
    rw [h1, List.filter_true, h2]
  have hmatch : matchingTagOptions tags [] =
      tags.map (fun t => TagOption.mk t.id t.name true 0 false) := by
    rw [matchingTagOptions, hraw]
    apply List.Sorted.insertionSort_eq
    rw [List.Sorted, List.pairwise_map]
    exact List.pairwise_of_forall fun _ _ => le_refl (0 : Rat)
  have hshow : shouldShowCreateOption tags [] = false := rfl
  rw [getFilteredTagOptions, hshow, if_neg (by simp), List.append_nil, hmatch]

theorem length_filteredOptions_nil (tags : List Tag) :
    (getFilteredTagOptions tags []).length = tags.length := by
  rw [filteredOptions_nil, List.length_map]

theorem length_matchingTagOptions_le (tags : List Tag) (query : Str) :
    (matchingTagOptions tags query).length ≤ tags.length := by
  rw [matchingTagOptions, List.length_insertionSort, rawTagOptions]
  exact Nat.le_trans (List.length_filter_le _ _) (Nat.le_of_eq (List.length_map _ _))

/-- Structure of the candidate list: either no create candidate and the
list is just the sorted matching tags, or the matching list is empty and
the whole list is the single create candidate. -/
theorem filteredOptions_cases (tags : List Tag) (query : Str) :
    (shouldShowCreateOption tags query = false ∧
      getFilteredTagOptions tags query = matchingTagOptions tags query) ∨
    (shouldShowCreateOption tags query = true ∧
      matchingTagOptions tags query = [] ∧
      getFilteredTagOptions tags query =
        [TagOption.mk newTagOptionId (trim query) true 0 true]) := by
  cases hs : shouldShowCreateOption tags query with
  | false =>
    refine Or.inl ⟨rfl, ?_⟩
    rw [getFilteredTagOptions, hs]
    simp
  | true =>
    have hmat : matchingTagOptions tags query = [] := by
      have hs' := hs
      rw [shouldShowCreateOption] at hs'
      have h1 := (Bool.and_eq_true _ _).mp hs'
      have h0 := (Bool.and_eq_true _ _).mp h1.1
      rw [beq_iff_eq] at h0
      exact List.length_eq_zero.mp h0.2
    refine Or.inr ⟨rfl, hmat, ?_⟩
    rw [getFilteredTagOptions, hs, hmat]
    simp

theorem getAtInt_mem {l : List α} {i : Int} {a : α} (h : getAtInt l i = some a) :
    a ∈ l ∧ 0 ≤ i ∧ i.toNat < l.length := by
  rw [getAtInt] at h
  split at h
  · exact absurd h (by simp)
  · rename_i hi
    have hlt : i.toNat < l.length := by
      by_contra hge
      rw [List.getElem?_eq_none (Nat.le_of_not_lt hge)] at h
      exact absurd h (by simp)
    refine ⟨?_, Int.not_lt.mp hi, hlt⟩
    rw [List.getElem?_eq_getElem hlt] at h
    exact (Option.some_inj.mp h) ▸ List.getElem_mem hlt

theorem findIdxInt_bounds (p : α → Bool) (l : List α) :
    findIdxInt p l = -1 ∨
      (0 ≤ findIdxInt p l ∧ findIdxInt p l < (l.length : Int)) := by
  unfold findIdxInt
  cases h : l.findIdx? p with
  | none => exact Or.inl rfl
  | some i =>
    right
    constructor
    · show (0 : Int) ≤ (i : Int)
      exact Int.ofNat_nonneg i
    · show ((i : Nat) : Int) < (l.length : Int)
      have := (List.findIdx?_eq_some_iff_findIdx_eq.mp h).1
      exact_mod_cast this

/-! ### C4: sortedness and stable tie-break of the candidate list -/

theorem matchingTagOptions_eq_nil_iff (tags : List Tag) (query : Str) :
    matchingTagOptions tags query = [] ↔
      ∀ t ∈ tags, (fuzzyMatch t.name query).matched = false := by
  rw [matchingTagOptions]
  have hlen : (rawTagOptions tags query).insertionSort scoreDesc = [] ↔
      rawTagOptions tags query = [] := by
    constructor
    · intro h
      have := List.length_insertionSort scoreDesc (rawTagOptions tags query)
      rw [h] at this
      exact List.length_eq_zero.mp this.symm
    · intro h
      rw [h]
      rfl
  rw [hlen, rawTagOptions, List.filter_eq_nil_iff]
  simp only [List.mem_map, forall_exists_index, and_imp]
  constructor
  · intro h t ht
    have := h _ t ht rfl
    simpa using this
  · intro h x t ht hx
    subst hx
    simpa using h t ht

/-- C4: for every registry and query the candidate list is sorted by
non-increasing score, and among candidates of equal score the registry
order is preserved (the sort is stable, so equal-score candidates appear
exactly as in the registry-ordered pre-sort list `rawTagOptions`). -/
theorem candidateList_sorted_stable (tags : List Tag) (query : Str) :
    (getFilteredTagOptions tags query).Pairwise scoreDesc ∧
    (∀ s : Rat,
      (matchingTagOptions tags query).filter (fun t => decide (t.score = s)) =
        (rawTagOptions tags query).filter (fun t => decide (t.score = s))) := by
  constructor
  · rcases filteredOptions_cases tags query with ⟨-, h⟩ | ⟨-, -, h⟩
    · rw [h, matchingTagOptions]
      exact List.sorted_insertionSort scoreDesc _
    · rw [h]
      exact List.pairwise_singleton _ _
  · intro s
    set p : TagOption → Bool := fun t => decide (t.score = s) with hp
    have hscore : ∀ a ∈ (rawTagOptions tags query).filter p, a.score = s := by
      intro a ha
      have := (List.mem_filter.mp ha).2
      rw [hp] at this
      exact of_decide_eq_true this
    have hc : ((rawTagOptions tags query).filter p).Pairwise scoreDesc := by
      apply List.pairwise_of_forall_mem_list
      intro a ha b hb
      show b.score ≤ a.score
      rw [hscore a ha, hscore b hb]
    have h1 : List.Sublist ((rawTagOptions tags query).filter p)
        (matchingTagOptions tags query) := by
      rw [matchingTagOptions]
      exact List.sublist_insertionSort hc (List.filter_sublist _)
    have h2 : List.Sublist (((rawTagOptions tags query).filter p).filter p)
        ((matchingTagOptions tags query).filter p) := h1.filter p
    rw [List.filter_eq_self.mpr (fun a ha => (List.mem_filter.mp ha).2)] at h2
    have hperm : List.Perm ((matchingTagOptions tags query).filter p)
        ((rawTagOptions tags query).filter p) := by
      rw [matchingTagOptions]
      exact (List.perm_insertionSort scoreDesc _).filter p
    exact (h2.eq_of_length (hperm.length_eq.symm)).symm

/-! ### C1: the synthetic create candidate -/

theorem shouldShowCreateOption_iff (tags : List Tag) (query : Str) :
    shouldShowCreateOption tags query = true ↔
      (trim query ≠ [] ∧ (∀ t ∈ tags, (fuzzyMatch t.name query).matched = false) ∧
        (∀ t ∈ tags, lower t.name ≠ lower query)) := by
  rw [shouldShowCreateOption]
  simp only [Bool.and_eq_true, Bool.not_eq_true', beq_iff_eq, List.isEmpty_eq_false,
    List.length_eq_zero, List.any_eq_false, and_assoc, ne_eq]
  rw [matchingTagOptions_eq_nil_iff]

theorem filter_isNew_eq (tags : List Tag) (query : Str) :
    (getFilteredTagOptions tags query).filter (fun c => c.isNew) =
      if shouldShowCreateOption tags query then
        [TagOption.mk newTagOptionId (trim query) true 0 true]
      else [] := by
  rw [getFilteredTagOptions, List.filter_append]
  have h1 : (matchingTagOptions tags query).filter (fun c => c.isNew) = [] := by
    rw [List.filter_eq_nil_iff]
    intro a ha
    rw [(mem_matchingTagOptions ha).1]
    simp
  rw [h1, List.nil_append]
  cases shouldShowCreateOption tags query <;> rfl

/-- C1 (amended): the candidate list contains the synthetic create
candidate exactly once iff the trimmed query is non-empty, no registry tag
fuzzy-matches the query, and no registry tag's name equals the *untrimmed*
query case-insensitively (the source compares against the untrimmed
query); otherwise it contains none; when present it carries the trimmed
query text. -/
theorem createCandidate_iff (tags : List Tag) (query : Str) :
    (((getFilteredTagOptions tags query).filter (fun c => c.isNew)).length =
      if trim query ≠ [] ∧ (∀ t ∈ tags, (fuzzyMatch t.name query).matched = false) ∧
          (∀ t ∈ tags, lower t.name ≠ lower query) then 1 else 0) ∧
    ∀ c ∈ getFilteredTagOptions tags query, c.isNew = true → c.name = trim query := by
  constructor
  · rw [filter_isNew_eq]
    by_cases hc : trim query ≠ [] ∧ (∀ t ∈ tags, (fuzzyMatch t.name query).matched = false) ∧
        (∀ t ∈ tags, lower t.name ≠ lower query)
    · rw [if_pos hc, (shouldShowCreateOption_iff tags query).mpr hc]
      rfl
    · rw [if_neg hc]
      have hb : shouldShowCreateOption tags query = false := by
        cases h : shouldShowCreateOption tags query with
        | false => rfl
        | true => exact absurd ((shouldShowCreateOption_iff tags query).mp h) hc
      rw [hb]
      rfl
  · intro c hc hnew
    rcases List.mem_append.mp hc with hl | hr
    · rw [(mem_matchingTagOptions hl).1] at hnew
      exact absurd hnew (by simp)
    · split at hr
      · rw [List.mem_singleton.mp hr]
      · exact absurd hr (List.not_mem_nil c)

/-- C1 counterexample to the claim as stated: with registry
`[{id: "1", name: "work"}]` and query `"work "` (trailing blank) the
trimmed query equals the tag name case-insensitively, yet a create
candidate is produced, because the source compares names against the
untrimmed query. -/
theorem createCandidate_trimmed_cex :
    ((getFilteredTagOptions [Tag.mk "1".toList "work".toList] "work ".toList).any
      (fun c => c.isNew)) = true ∧
    (∀ t ∈ [Tag.mk "1".toList "work".toList],
      (fuzzyMatch t.name "work ".toList).matched = false) ∧
    (∃ t ∈ [Tag.mk "1".toList "work".toList],
      lower t.name = lower (trim "work ".toList)) ∧
    trim "work ".toList ≠ [] := by
  decide

/-! ### C3: substring scores versus subsequence scores -/

/-- C3 (amended): a substring match whose occurrence index is at most 900
scores strictly higher than every pure subsequence match. Without the
index bound the claim fails (see the counterexample below): a substring
score is `1000 - index`, which drops to or below the subsequence band for
occurrence indices of 900 and beyond. -/
theorem substr_score_gt_subseq (t1 q1 t2 q2 : Str) (i : Nat)
    (hq1 : trim q1 ≠ []) (h1 : subIndex? (lower t1) (lower q1) = some i)
    (hi : i ≤ 900)
    (hq2 : trim q2 ≠ []) (h2 : subIndex? (lower t2) (lower q2) = none)
    (hm : (fuzzyMatch t2 q2).matched = true) :
    (fuzzyMatch t2 q2).score < (fuzzyMatch t1 q1).score := by
  rw [fuzzyMatch_substr hq1 h1]
  rw [fuzzyMatch_subseq hq2 h2] at hm ⊢
  dsimp only at hm ⊢
  rw [hm, if_pos rfl]
  rw [beq_iff_eq] at hm
  have hle : subseqCount (lower t2) (lower q2) ≤ (lower t2).length :=
    subseqCount_le_left _ _
  have hne : subseqCount (lower t2) (lower q2) ≠ (lower t2).length := by
    intro he
    have : lower t2 = lower q2 := eq_of_subseqCount_eq _ _ he (he ▸ hm)
    rw [this, subIndex?_self] at h2
    exact absurd h2 (by simp)
  have hlt : subseqCount (lower t2) (lower q2) < (lower t2).length :=
    Nat.lt_of_le_of_ne hle hne
  have hLpos : 0 < ((lower t2).length : Rat) := by
    have : 0 < (lower t2).length := Nat.lt_of_le_of_lt (Nat.zero_le _) hlt
    exact_mod_cast this
  have hfrac : ((subseqCount (lower t2) (lower q2) : Rat) /
      ((lower t2).length : Rat)) < 1 := by
    rw [div_lt_one hLpos]
    exact_mod_cast hlt
  have hband : ((subseqCount (lower t2) (lower q2) : Rat) /
      ((lower t2).length : Rat)) * 100 < 100 := by
    nlinarith [hfrac]
  have hfloor : (100 : Rat) ≤ 1000 - (i : Rat) := by
    have : (i : Rat) ≤ 900 := by exact_mod_cast hi
    linarith
  linarith

/-- Witness for `substr_score_gt_subseq`: the substring match of `"b"` in
`"ab"` (index 1) outranks the subsequence match of `"ab"` in `"axb"`. -/
theorem substr_score_gt_subseq_witness :
    (fuzzyMatch "axb".toList "ab".toList).score <
      (fuzzyMatch "ab".toList "b".toList).score :=
  substr_score_gt_subseq "ab".toList "b".toList "axb".toList "ab".toList 1
    (by decide) (by decide) (by decide) (by decide) (by decide) (by decide)

/-- A 951-character candidate text whose only `'b'` sits at index 950. -/
def longText : Str := List.replicate 950 'x' ++ ['b']

set_option maxRecDepth 40000 in
/-- C3 counterexample to the claim as stated: the substring match of
`"b"` in `longText` (index 950, score 50) scores strictly below the pure
subsequence match of `"ab"` in `"axb"` (score 200/3), so the minimum
substring score does not exceed the maximum subsequence score. -/
theorem substr_score_cex :
    trim ['b'] ≠ [] ∧
    subIndex? (lower longText) (lower ['b']) = some 950 ∧
    trim "ab".toList ≠ [] ∧
    subIndex? (lower "axb".toList) (lower "ab".toList) = none ∧
    (fuzzyMatch "axb".toList "ab".toList).matched = true ∧
    (fuzzyMatch longText ['b']).score < (fuzzyMatch "axb".toList "ab".toList).score := by
  have e1 : subIndex? (lower longText) (lower ['b']) = some 950 := by decide
  refine ⟨by decide, e1, by decide, by decide, by decide, ?_⟩
  rw [fuzzyMatch_substr (by decide) e1, fuzzyMatch_subseq (by decide) (by decide)]
  dsimp only
  have e2 : (subseqCount (lower "axb".toList) (lower "ab".toList) ==
      (lower "ab".toList).length) = true := by decide
  rw [e2, if_pos rfl]
  have e3 : subseqCount (lower "axb".toList) (lower "ab".toList) = 2 := by decide
  have e4 : (lower "axb".toList).length = 3 := by decide
  rw [e3, e4]
  norm_num

/-! ### C5: navigation wraparound -/

/-- C5 (amended): in the inline tag-edit session, navigating down from the
last index wraps to 0 and navigating up from index 0 wraps to the last
index, for every non-empty candidate list; on an empty candidate list
navigation pins the highlight to 0 (a no-op only when it is already 0; it
moves the sentinel `-1` to 0). The hashtag-triggered variant does *not*
wrap: its arrows clamp at the list ends. -/
theorem navigate_wraparound (tags : List Tag) :
    (∀ s : InlineTagEdit, 1 ≤ (getFilteredTagOptions tags s.query).length →
      s.highlightedIndex = ((getFilteredTagOptions tags s.query).length : Int) - 1 →
      (navigateInlineTagEdit tags s .down).highlightedIndex = 0) ∧
    (∀ s : InlineTagEdit, 1 ≤ (getFilteredTagOptions tags s.query).length →
      s.highlightedIndex = 0 →
      (navigateInlineTagEdit tags s .up).highlightedIndex =
        ((getFilteredTagOptions tags s.query).length : Int) - 1) ∧
    (∀ s : InlineTagEdit, (getFilteredTagOptions tags s.query).length = 0 →
      s.highlightedIndex = -1 ∨ s.highlightedIndex = 0 →
      (navigateInlineTagEdit tags s .up).highlightedIndex = 0 ∧
      (navigateInlineTagEdit tags s .down).highlightedIndex = 0) ∧
    (∀ h : HashtagAutocomplete,
      h.highlightedIndex = ((getFilteredTagOptions tags h.query).length : Int) - 1 →
      (hashtagArrowDown tags h).highlightedIndex = h.highlightedIndex) ∧
    (∀ h : HashtagAutocomplete, h.highlightedIndex = 0 →
      (hashtagArrowUp h).highlightedIndex = 0) := by
  refine ⟨?_, ?_, ?_, ?_, ?_⟩
  · intro s hlen hidx
    simp only [navigateInlineTagEdit]
    split_ifs <;> omega
  · intro s hlen hidx
    simp only [navigateInlineTagEdit]
    split_ifs <;> omega
  · intro s hlen hidx
    constructor <;>
      · simp only [navigateInlineTagEdit]
        split_ifs <;> omega
  · intro h hidx
    simp only [hashtagArrowDown]
    omega
  · intro h hidx
    simp only [hashtagArrowUp]
    omega

/-- Witness for `navigate_wraparound`: with a two-tag registry and empty
query, inline down from index 1 wraps to 0, while the hashtag variant
stays at index 1. -/
theorem navigate_wraparound_witness :
    (navigateInlineTagEdit [Tag.mk "1".toList "aa".toList, Tag.mk "2".toList "ab".toList]
      ⟨"n".toList, [], 1⟩ .down).highlightedIndex = 0 ∧
    (hashtagArrowDown [Tag.mk "1".toList "aa".toList, Tag.mk "2".toList "ab".toList]
      ⟨"n".toList, [], 0, 1⟩).highlightedIndex = 1 := by
  constructor
  · exact (navigate_wraparound _).1 ⟨"n".toList, [], 1⟩ (by decide) (by decide)
  · have h := (navigate_wraparound
      [Tag.mk "1".toList "aa".toList, Tag.mk "2".toList "ab".toList]).2.2.2.1
      ⟨"n".toList, [], 0, 1⟩ (by decide)
    rw [h]

/-- C5 counterexample to the claim as stated: the hashtag-triggered
variant does not wrap around: with 2 candidates and the highlight on the
last index (1), ArrowDown leaves it at 1 instead of moving to 0. -/
theorem hashtag_no_wraparound_cex :
    (getFilteredTagOptions
      [Tag.mk "1".toList "aa".toList, Tag.mk "2".toList "ab".toList] []).length = 2 ∧
    (hashtagArrowDown [Tag.mk "1".toList "aa".toList, Tag.mk "2".toList "ab".toList]
      ⟨"n".toList, [], 0, 1⟩).highlightedIndex = 1 ∧ (1 : Int) ≠ 0 := by
  decide

/-! ### C6 and C10: the toggle operation -/

/-- C10: toggling a tag touches at most the notes whose id matches the
target; every other note is returned unchanged, and even on the target
note the id, content, creation timestamp, bookmarked flag and completed
flag are preserved (only the tag list and `updatedAt` may change). -/
theorem toggleTag_frame (now : Nat) (notes : List Note) (noteId tagId : Str) :
    List.Forall₂ (fun n n2 =>
      n2.id = n.id ∧ n2.content = n.content ∧ n2.createdAt = n.createdAt ∧
      n2.isBookmarked = n.isBookmarked ∧ n2.isCompleted = n.isCompleted ∧
      (n.id ≠ noteId → n2 = n))
      notes (toggleTag now notes noteId tagId) := by
  rw [toggleTag, List.forall₂_map_right_iff, List.forall₂_same]
  intro n _
  by_cases hid : n.id = noteId
  · rw [if_pos hid]
    exact ⟨rfl, rfl, rfl, rfl, rfl, fun h => absurd hid h⟩
  · rw [if_neg hid]
    exact ⟨rfl, rfl, rfl, rfl, rfl, fun _ => rfl⟩

/-- C6 (amended): toggling the same tag twice in succession restores, for
every note, the *membership* of every id in the tag-association list; the
list itself is restored exactly when the toggled tag was not previously
associated, while a previously associated tag ends up moved to the end of
the list (all its occurrences removed, one copy appended), so the order of
the list is not restored in general. -/
theorem toggleTag_twice_members (now1 now2 : Nat) (notes : List Note)
    (noteId tagId : Str) :
    List.Forall₂ (fun n n2 =>
      (∀ x, x ∈ n2.tagIds ↔ x ∈ n.tagIds) ∧
      (n.id ≠ noteId → n2 = n) ∧
      (n.id = noteId → n2.tagIds =
        if tagId ∈ n.tagIds then
          n.tagIds.filter (fun i => i != tagId) ++ [tagId]
        else n.tagIds))
      notes (toggleTag now2 (toggleTag now1 notes noteId tagId) noteId tagId) := by
  rw [toggleTag, toggleTag, List.map_map, List.forall₂_map_right_iff,
    List.forall₂_same]
  intro n _
  simp only [Function.comp_apply]
  by_cases hid : n.id = noteId
  · by_cases hmem : tagId ∈ n.tagIds
    · have hc1 : n.tagIds.contains tagId = true := by
        simp [List.contains, hmem]
      have hc2 : (n.tagIds.filter (fun i => i != tagId)).contains tagId = false := by
        simp [List.contains]
      rw [if_pos hid, hc1, if_pos rfl]
      simp only [if_pos hid, hc2]
      refine ⟨?_, fun h => absurd hid h, fun _ => ?_⟩
      · intro x
        by_cases hx : x = tagId
        · subst hx
          simp [List.mem_append, hmem]
        · simp [List.mem_append, List.mem_filter, hx, bne_iff_ne]
      · rw [if_pos hmem]
        simp
    · have hc1 : n.tagIds.contains tagId = false := by
        simp [List.contains, hmem]
      have hc2 : ((n.tagIds ++ [tagId]).contains tagId) = true := by
        simp [List.contains]
      rw [if_pos hid, hc1]
      simp only [Bool.false_eq_true, if_false, if_pos hid, hc2, if_pos rfl]
      have hfilter : (n.tagIds ++ [tagId]).filter (fun i => i != tagId) = n.tagIds := by
        rw [List.filter_append]
        have h1 : [tagId].filter (fun i => i != tagId) = [] := by simp
        have h2 : n.tagIds.filter (fun i => i != tagId) = n.tagIds :=
          List.filter_eq_self.mpr fun a ha =>
            bne_iff_ne.mpr fun he => hmem (he ▸ ha)
        rw [h1, h2, List.append_nil]
      refine ⟨?_, fun h => absurd hid h, fun _ => ?_⟩
      · intro x
        simp
        exact fun hx he => hmem (he ▸ hx)
      · simp [if_neg hmem]
        exact fun a ha he => hmem (he ▸ ha)
  · rw [if_neg hid, if_neg hid]
    exact ⟨fun _ => Iff.rfl, fun _ => rfl, fun h => absurd h hid⟩

/-- C6 counterexample to the claim as stated: a note holding tags
`["a", "b"]`, after toggling `"a"` twice, holds `["b", "a"]`: the same
associations, but not the original list. -/
theorem toggleTag_twice_cex :
    (toggleTag 7 (toggleTag 6
        [Note.mk "n1".toList [] ["a".toList, "b".toList] 0 0 false false]
        "n1".toList "a".toList) "n1".toList "a".toList).map (fun n => n.tagIds) =
      [["b".toList, "a".toList]] ∧
    ([["b".toList, "a".toList]] : List (List Str)) ≠ [["a".toList, "b".toList]] := by
  decide

/-! ### C7: the highlight-range invariant -/

theorem sessionInv_continue (notes : List Note) (tags : List Tag)
    (s : InlineTagEdit) (h : sessionInv tags s) :
    sessionInv tags (continueTaggingSession notes tags s) := by
  rw [continueTaggingSession]
  cases hfind : notes.find? (fun n => n.id == s.noteId) with
  | none => exact h
  | some note =>
    dsimp only
    rcases findIdxInt_bounds
        (fun tag => !tag.isNew && !(note.tagIds.contains tag.id))
        (getFilteredTagOptions tags []) with hb | ⟨hb1, hb2⟩ <;>
      · simp only [sessionInv]
        omega

theorem length_le_of_mem_not_new {tags : List Tag} {query : Str}
    {opt : TagOption} (hmem : opt ∈ getFilteredTagOptions tags query)
    (hnew : opt.isNew = false) :
    (getFilteredTagOptions tags query).length ≤ tags.length := by
  rcases filteredOptions_cases tags query with ⟨-, he⟩ | ⟨-, -, he⟩
  · rw [he]
    exact length_matchingTagOptions_le tags query
  · rw [he] at hmem
    rw [List.mem_singleton] at hmem
    rw [hmem] at hnew
    exact absurd hnew (by simp)

/-- C7 (amended): after every session operation the highlighted index is
either the sentinel `-1` or lies within `[0, max 0 (candidateCount - 1)]`
for the current candidate list. Contrary to the claim as stated, the
sentinel is not reserved for an empty candidate list: opening a session
sets it while the (non-empty-registry) candidate list is non-empty, and a
query update keeps it. A query update that shortens the list clamps a
non-sentinel highlight into the new valid range. -/
theorem session_highlight_inv (tags : List Tag) :
    (∀ noteId : Str, sessionInv tags (startInlineTagEdit noteId)) ∧
    (∀ (s : InlineTagEdit) (q : Str), sessionInv tags s →
      sessionInv tags (updateInlineTagQuery tags s q)) ∧
    (∀ (s : InlineTagEdit) (d : NavDirection), sessionInv tags s →
      sessionInv tags (navigateInlineTagEdit tags s d)) ∧
    (∀ (now : Nat) (notes : List Note) (s : InlineTagEdit), sessionInv tags s →
      sessionInv tags (toggleHighlightedTag now notes tags s).2) ∧
    (∀ (now : Nat) (freshId : Str) (notes : List Note) (s s' : InlineTagEdit),
      sessionInv tags s →
      (handleTagEnter now freshId notes tags s).2.2 = some s' →
      sessionInv tags s') := by
  refine ⟨?_, ?_, ?_, ?_, ?_⟩
  · intro noteId
    exact Or.inl rfl
  · intro s q h
    simp only [sessionInv, updateInlineTagQuery] at h ⊢
    omega
  · intro s d h
    cases d <;>
      · simp only [sessionInv, navigateInlineTagEdit] at h ⊢
        split_ifs <;> omega
  · intro now notes s h
    rw [toggleHighlightedTag]
    cases hopt : getAtInt (getFilteredTagOptions tags s.query) s.highlightedIndex with
    | none => exact h
    | some opt =>
      dsimp only
      cases hnew : opt.isNew with
      | true => simpa [hnew] using h
      | false =>
        simp only [Bool.false_eq_true, if_false]
        split_ifs with hauto
        · exact sessionInv_continue notes tags s h
        · obtain ⟨hmem, hge, hlt⟩ := getAtInt_mem hopt
          have hle := length_le_of_mem_not_new hmem hnew
          have hnil := length_filteredOptions_nil tags
          simp only [sessionInv]
          omega
  · intro now freshId notes s s' h hsome
    rw [handleTagEnter] at hsome
    split at hsome
    · cases hopt : getAtInt (getFilteredTagOptions tags s.query) s.highlightedIndex with
      | none =>
        rw [hopt] at hsome
        dsimp only at hsome
        cases Option.some_inj.mp hsome
        exact h
      | some opt =>
        rw [hopt] at hsome
        dsimp only at hsome
        split_ifs at hsome <;>
          · cases Option.some_inj.mp hsome
            exact sessionInv_continue notes tags s h
    · exact absurd hsome (by simp)

/-- Witness for `session_highlight_inv`: a query update from a freshly
opened session on a one-tag registry keeps the invariant. -/
theorem session_highlight_inv_witness :
    sessionInv [Tag.mk "1".toList "a".toList]
      (updateInlineTagQuery [Tag.mk "1".toList "a".toList]
        ⟨"n".toList, [], -1⟩ "x".toList) :=
  (session_highlight_inv _).2.1 ⟨"n".toList, [], -1⟩ "x".toList (by decide)

/-- C7 counterexample to the claim as stated: opening a session over a
one-tag registry highlights the sentinel `-1` although the candidate list
is non-empty, so the highlight is neither in `[0, max 0 (count-1)]` nor a
sentinel-on-empty-list. -/
theorem session_open_sentinel_cex :
    ¬ sessionInvStrict [Tag.mk "1".toList "a".toList]
      (startInlineTagEdit "n".toList) := by
  decide

/-! ### C2: the auto-advance policy -/

/-- C2 (amended): when the auto-advance policy triggers (existing tag
toggled, non-empty trimmed query, pre-toggle candidate list of exactly one
entry), the session is advanced to the first tag of the unfiltered list
that is not associated with the target note *in its pre-toggle state*
(clamped to index 0 when every tag is already associated). The toggle
itself is not taken into account — the source reads the stale render
closure — so the newly highlighted candidate can be associated with the
note, in particular the tag just toggled on. -/
theorem auto_advance_pre_toggle (now : Nat) (notes : List Note)
    (tags : List Tag) (s : InlineTagEdit) (note : Note)
    (hlen : (getFilteredTagOptions tags s.query).length = 1)
    (hhi : s.highlightedIndex = 0)
    (hnew : ∀ opt ∈ getFilteredTagOptions tags s.query, opt.isNew = false)
    (hq : (trim s.query).isEmpty = false)
    (hfind : notes.find? (fun n => n.id == s.noteId) = some note) :
    (toggleHighlightedTag now notes tags s).2 =
      ⟨s.noteId, [],
        max 0 (findIdxInt
          (fun tag => !tag.isNew && !(note.tagIds.contains tag.id))
          (getFilteredTagOptions tags []))⟩ := by
  obtain ⟨opt, hopt⟩ := List.length_eq_one.mp hlen
  have hget : getAtInt (getFilteredTagOptions tags s.query) s.highlightedIndex =
      some opt := by
    rw [hopt, hhi]
    rfl
  have hnewf : opt.isNew = false := hnew opt (by rw [hopt]; exact List.mem_singleton.mpr rfl)
  rw [toggleHighlightedTag, hget]
  dsimp only
  rw [hnewf]
  simp only [Bool.false_eq_true, if_false]
  have hauto : (!(trim s.query).isEmpty &&
      ((getFilteredTagOptions tags s.query).length == 1)) = true := by
    rw [hq, hlen]
    rfl
  rw [hauto]
  simp only [if_true]
  rw [continueTaggingSession, hfind]

/-- Witness for `auto_advance_pre_toggle`: registry `[{1, "a"}]`, an
untagged note, query `"a"`, highlight 0. -/
theorem auto_advance_pre_toggle_witness :
    (toggleHighlightedTag 5 [Note.mk "n1".toList [] [] 0 0 false false]
        [Tag.mk "1".toList "a".toList] ⟨"n1".toList, "a".toList, 0⟩).2 =
      ⟨"n1".toList, [],
        max 0 (findIdxInt
          (fun tag => !tag.isNew &&
            !((Note.mk "n1".toList [] [] 0 0 false false).tagIds.contains tag.id))
          (getFilteredTagOptions [Tag.mk "1".toList "a".toList] []))⟩ :=
  auto_advance_pre_toggle 5 _ _ _ _ (by decide) (by decide) (by decide)
    (by decide) (by decide)

/-- C2 counterexample to the claim as stated: registry `[{1, "a"}]`, an
untagged note, query `"a"`. The auto-advance trigger holds (one candidate,
non-empty query); after the toggle, the highlighted candidate is the
existing tag `"1"`, which *is* associated with the target note. -/
theorem auto_advance_cex :
    (trim ("a".toList)).isEmpty = false ∧
    (getFilteredTagOptions [Tag.mk "1".toList "a".toList] "a".toList).length = 1 ∧
    ((getAtInt
        (getFilteredTagOptions [Tag.mk "1".toList "a".toList]
          (toggleHighlightedTag 5 [Note.mk "n1".toList [] [] 0 0 false false]
            [Tag.mk "1".toList "a".toList] ⟨"n1".toList, "a".toList, 0⟩).2.query)
        (toggleHighlightedTag 5 [Note.mk "n1".toList [] [] 0 0 false false]
          [Tag.mk "1".toList "a".toList]
          ⟨"n1".toList, "a".toList, 0⟩).2.highlightedIndex).map
      (fun c => (c.isNew, c.id))) = some (false, "1".toList) ∧
    (toggleHighlightedTag 5 [Note.mk "n1".toList [] [] 0 0 false false]
        [Tag.mk "1".toList "a".toList] ⟨"n1".toList, "a".toList, 0⟩).1.map
      (fun n => (n.id, n.tagIds)) = [("n1".toList, ["1".toList])] := by
  decide

/-! ### C9: selecting on an empty candidate list -/

/-- C9 (amended): with an empty candidate list, both select actions leave
the notes and the tag registry unchanged, but only the Enter select closes
the session: its guard fails and `exitInlineTagEdit` runs. The Space
select (`toggleHighlightedTag`) finds no highlighted option and returns
without any state change, leaving the session open and unchanged. -/
theorem select_empty_behavior (now : Nat) (freshId : Str) (notes : List Note)
    (tags : List Tag) (s : InlineTagEdit)
    (h : (getFilteredTagOptions tags s.query).length = 0) :
    handleTagEnter now freshId notes tags s = (notes, tags, none) ∧
    toggleHighlightedTag now notes tags s = (notes, s) := by
  constructor
  · rw [handleTagEnter]
    have hng : ¬(0 < (getFilteredTagOptions tags s.query).length ∧
        0 ≤ s.highlightedIndex) := by
      rw [h]
      simp
    rw [if_neg hng]
  · have hnil : getFilteredTagOptions tags s.query = [] :=
      List.length_eq_zero.mp h
    have hget : getAtInt ([] : List TagOption) s.highlightedIndex = none := by
      rw [getAtInt]
      split
      · rfl
      · simp
    rw [toggleHighlightedTag, hnil, hget]

/-- Witness for `select_empty_behavior`: empty registry, empty query:
Enter closes the session, Space leaves it open. -/
theorem select_empty_behavior_witness :
    handleTagEnter 3 "9".toList [Note.mk "n1".toList [] [] 0 0 false false] []
      ⟨"n1".toList, [], -1⟩ =
      ([Note.mk "n1".toList [] [] 0 0 false false], [], none) ∧
    toggleHighlightedTag 3 [Note.mk "n1".toList [] [] 0 0 false false] []
      ⟨"n1".toList, [], -1⟩ =
      ([Note.mk "n1".toList [] [] 0 0 false false],
        (⟨"n1".toList, [], -1⟩ : InlineTagEdit)) :=
  select_empty_behavior 3 "9".toList _ [] _ (by decide)

/-- C9 counterexample to the claim as stated: the Space select on an empty
candidate list does not close the session. With an empty registry the
candidate list is empty, yet `toggleHighlightedTag` returns the notes and
the very same session, still open. -/
theorem select_empty_space_cex :
    (getFilteredTagOptions ([] : List Tag) ([] : Str)).length = 0 ∧
    toggleHighlightedTag 3 [Note.mk "n1".toList [] [] 0 0 false false] []
      ⟨"n1".toList, [], -1⟩ =
      ([Note.mk "n1".toList [] [] 0 0 false false],
        (⟨"n1".toList, [], -1⟩ : InlineTagEdit)) := by
  decide

/-! ### C8: creation precedes association -/

theorem wellTagged_toggleTag {notes : List Note} {tags : List Tag}
    (now : Nat) {noteId tagId : Str} (hw : WellTagged notes tags)
    (hreg : ∃ t ∈ tags, t.id = tagId) :
    WellTagged (toggleTag now notes noteId tagId) tags := by
  intro n hn tid htid
  rw [toggleTag, List.mem_map] at hn
  obtain ⟨m, hm, rfl⟩ := hn
  by_cases hid : m.id = noteId
  · simp only [if_pos hid] at htid
    by_cases hc : m.tagIds.contains tagId
    · simp only [hc, if_true] at htid
      exact hw m hm tid (List.mem_filter.mp htid).1
    · simp only [hc, Bool.false_eq_true, if_false] at htid
      rcases List.mem_append.mp htid with hin | hin
      · exact hw m hm tid hin
      · rw [List.mem_singleton.mp hin]
        exact hreg
  · simp only [if_neg hid] at htid
    exact hw m hm tid htid

theorem wellTagged_append {notes : List Note} {tags : List Tag} (t : Tag)
    (hw : WellTagged notes tags) : WellTagged notes (tags ++ [t]) := by
  intro n hn tid htid
  obtain ⟨tg, htg, he⟩ := hw n hn tid htid
  exact ⟨tg, List.mem_append_left _ htg, he⟩

theorem mem_filteredOptions_not_new {opt : TagOption} {tags : List Tag}
    {query : Str} (hmem : opt ∈ getFilteredTagOptions tags query)
    (hnew : opt.isNew = false) : ∃ t ∈ tags, t.id = opt.id := by
  rcases List.mem_append.mp hmem with hl | hr
  · obtain ⟨-, t, ht, he⟩ := mem_matchingTagOptions hl
    exact ⟨t, ht, he.symm⟩
  · split at hr
    · rw [List.mem_singleton.mp hr] at hnew
      exact absurd hnew (by simp)
    · exact absurd hr (List.not_mem_nil opt)

/-- C8: every operation that associates a tag with a note — toggling an
existing candidate, the Enter confirmation of the inline session (which
registers a newly created tag before associating it), and the hashtag
selection — preserves the invariant that a note's tag-association list
only holds identifiers present in the tag registry. -/
theorem association_preserves_wellTagged (now : Nat) (freshId : Str)
    (notes : List Note) (tags : List Tag) (hw : WellTagged notes tags) :
    (∀ s : InlineTagEdit,
      WellTagged (toggleHighlightedTag now notes tags s).1 tags) ∧
    (∀ s : InlineTagEdit,
      WellTagged (handleTagEnter now freshId notes tags s).1
        (handleTagEnter now freshId notes tags s).2.1) ∧
    (∀ (h : HashtagAutocomplete) (tagId : Str) (isNew : Bool),
      WellTagged (selectHashtagTag now freshId notes tags h tagId isNew).1
        (selectHashtagTag now freshId notes tags h tagId isNew).2.1) := by
  refine ⟨?_, ?_, ?_⟩
  · intro s
    rw [toggleHighlightedTag]
    cases hopt : getAtInt (getFilteredTagOptions tags s.query) s.highlightedIndex with
    | none => exact hw
    | some opt =>
      dsimp only
      cases hnewb : opt.isNew with
      | true => simpa using hw
      | false =>
        simp only [Bool.false_eq_true, if_false]
        split_ifs <;>
          exact wellTagged_toggleTag now hw
            (mem_filteredOptions_not_new (getAtInt_mem hopt).1 hnewb)
  · intro s
    rw [handleTagEnter]
    split
    · cases hopt : getAtInt (getFilteredTagOptions tags s.query) s.highlightedIndex with
      | none => exact hw
      | some opt =>
        dsimp only
        cases hnewb : opt.isNew with
        | true =>
          simp only [if_true]
          exact wellTagged_toggleTag now (wellTagged_append _ hw)
            ⟨⟨freshId, opt.name⟩, List.mem_append_right _ (List.mem_singleton.mpr rfl), rfl⟩
        | false =>
          simp only [Bool.false_eq_true, if_false]
          exact wellTagged_toggleTag now hw
            (mem_filteredOptions_not_new (getAtInt_mem hopt).1 hnewb)
    · exact hw
  · intro h tagId isNew
    rw [selectHashtagTag]
    cases hfind : tags.find? (fun t => t.id == tagId) with
    | some t =>
      exact wellTagged_toggleTag now hw ⟨t, List.mem_of_find?_eq_some hfind, rfl⟩
    | none =>
      dsimp only
      split_ifs
      · exact wellTagged_toggleTag now (wellTagged_append _ hw)
          ⟨⟨freshId, trim h.query⟩,
            List.mem_append_right _ (List.mem_singleton.mpr rfl), rfl⟩
      · exact hw

/-- Witness for `association_preserves_wellTagged`: toggling the single
matching candidate onto an untagged note keeps all associations
registered. -/
theorem association_preserves_wellTagged_witness :
    WellTagged
      (toggleHighlightedTag 5 [Note.mk "n1".toList [] [] 0 0 false false]
        [Tag.mk "1".toList "a".toList] ⟨"n1".toList, "a".toList, 0⟩).1
      [Tag.mk "1".toList "a".toList] :=
  (association_preserves_wellTagged 5 "9".toList _ _ (by decide)).1
    ⟨"n1".toList, "a".toList, 0⟩

end NotesApp
